import Mathlib

/-!
# Verification of the matfmonitor core against its source

Shallow embedding of the matfmonitor repository (Go) in Lean 4:

* `internal/checker/checker.go` — the TLS trust checker (`Check`,
  `matchHostname`, `matchesHostname`, `matchesPin`);
* the scheduler (`Scheduler`: `serverKeyString`, `markInFlight`,
  `clearInFlight`, `RequestPriorityCheck`, `addPriorityServer`,
  `removePriorityServer`, the `run` loop as a step relation);
* `internal/store/store.go` — the selection-query and sync contract
  (`GetServersNeedingCheck`, `EnsureServerExists`, `RemoveServersNotIn`,
  `syncServersFromMetadata`).

Modelling conventions: Go `time.Time` instants are integers (`Int`), with
`t1.After(t2)` as `t2 < t1`; Go strings are Lean `String`s, and the
hostname matcher additionally works on the underlying character lists so
that its behaviour can be characterised; external effects (URL parsing via
`net/url`, the TLS network handshake, `net.ParseIP`, the two `time.Now()`
calls) enter `Check` as explicit oracle arguments; the `fmt.Sprintf` error
strings are abstracted to tagged values carrying the interpolated data.
-/

namespace Matfmonitor

/-- `store.ServerKey`: composite identity of a federation member endpoint. -/
structure ServerKey where
  entityID : String
  baseURI : String
deriving DecidableEq, Repr

/-- `fedtls.Pin`: a published (algorithm, digest) pin. -/
structure Pin where
  alg : String
  digest : String
deriving DecidableEq, Repr

/-- `fedtls.Server`: a server entry of the metadata (base URI and pins). -/
structure Server where
  baseURI : String
  pins : List Pin
deriving DecidableEq, Repr

/-- The fields of an `x509.Certificate` that `checker.go` reads, plus its
SHA-256 fingerprint (`util.Fingerprint`, computed by an external package,
carried here as data). IP addresses are abstracted to lists of naturals. -/
structure Cert where
  commonName : String
  notAfter : Int
  dnsNames : List String
  ipAddresses : List (List Nat)
  fingerprint : String
deriving DecidableEq, Repr

/-- The `ErrorMessage` strings produced by `Check`, abstracted to tags
carrying the interpolated data (`""` on the healthy path is `noError`). -/
inductive ErrMsg where
  | noError
  | invalidAddress
  | connectionFailed
  | expired (notAfter : Int)
  | hostnameMismatch (cn host : String)
  | pinMismatch (fp : String)
deriving DecidableEq, Repr

/-- `checker.Result`: the outcome of one health check. -/
structure Result where
  entityID : String
  baseURI : String
  isHealthy : Bool
  errorMessage : ErrMsg
  certExpires : Option Int
  certCN : String
  certFingerprint : String
  checkedAt : Int
deriving DecidableEq, Repr

/-- `strings.ToLower` on a character list (ASCII case folding, which is all
that hostnames need). -/
def toLowerL (s : List Char) : List Char :=
  s.map Char.toLower

/-- `matchHostname` from checker.go, on character lists: exact match after
lowering, else a left-most `*.` wildcard matching exactly one non-empty
label.  `pre` plays the role of Go's `strings.TrimSuffix(hostname, suffix)`
(under the `HasSuffix` guard they agree). -/
def matchHostnameL (pattern hostname : List Char) : Bool :=
  let p := toLowerL pattern
  let h := toLowerL hostname
  if p = h then true
  else if ['*', '.'].isPrefixOf p then
    let suffix := p.drop 1
    if suffix.isSuffixOf h then
      let pre := h.take (h.length - suffix.length)
      !pre.contains '.' && !pre.isEmpty
    else false
  else false

/-- `matchHostname` from checker.go on strings. -/
def matchHostname (pattern hostname : String) : Bool :=
  matchHostnameL pattern.data hostname.data

/-- `matchesHostname` from checker.go: CN first, then DNS SANs, then IP SANs
when the requested host parses as an IP literal (`net.ParseIP` is external
and is passed in as `parseIP`). -/
def matchesHostname (cert : Cert) (hostname : String)
    (parseIP : String → Option (List Nat)) : Bool :=
  if matchHostname cert.commonName hostname then true
  else if cert.dnsNames.any (fun san => matchHostname san hostname) then true
  else
    match parseIP hostname with
    | some ip => cert.ipAddresses.any (fun sanIP => sanIP == ip)
    | none => false

/-- `matchesPin` from checker.go. -/
def matchesPin (fingerprint : String) (pins : List Pin) : Bool :=
  pins.any (fun pin => pin.alg == "sha256" && pin.digest == fingerprint)

/-- `RealChecker.Check` from checker.go.  The external effects are explicit
arguments: `checkedAt` is the `time.Now()` recorded into the result,
`parsed` is the outcome of `parseBaseURI` (host and port, or failure),
`conn` is the certificate captured by `getTLSCertificate` (or failure),
`now` is the `time.Now()` of the expiry comparison, and `parseIP` stands
for `net.ParseIP`. -/
def Check (entityID : String) (server : Server) (checkedAt : Int)
    (parsed : Option (String × String)) (conn : Option Cert) (now : Int)
    (parseIP : String → Option (List Nat)) : Result :=
  let base : Result :=
    { entityID := entityID, baseURI := server.baseURI, isHealthy := false,
      errorMessage := ErrMsg.noError, certExpires := none, certCN := "",
      certFingerprint := "", checkedAt := checkedAt }
  match parsed with
  | none => { base with errorMessage := ErrMsg.invalidAddress }
  | some (host, _port) =>
    match conn with
    | none => { base with errorMessage := ErrMsg.connectionFailed }
    | some cert =>
      let r1 :=
        { base with
          certCN := cert.commonName,
          certExpires := some cert.notAfter,
          certFingerprint := cert.fingerprint }
      if cert.notAfter < now then
        { r1 with errorMessage := ErrMsg.expired cert.notAfter }
      else if !matchesHostname cert host parseIP then
        { r1 with errorMessage := ErrMsg.hostnameMismatch cert.commonName host }
      else if !matchesPin cert.fingerprint server.pins then
        { r1 with errorMessage := ErrMsg.pinMismatch cert.fingerprint }
      else { r1 with isHealthy := true }

/-- `serverKeyString` from the scheduler: the in-flight map's key for a
server. -/
def serverKeyString (entityID baseURI : String) : String :=
  entityID ++ "|" ++ baseURI

/-- `Scheduler.markInFlight`: atomic check-and-set on the in-flight set
(the set of keys mapped to `true`), done in the source under
`inFlightLock`.  Returns `false` and leaves the set unchanged when the key
is already in flight. -/
def markInFlight (entityID baseURI : String) (inFlight : Finset String) :
    Bool × Finset String :=
  if serverKeyString entityID baseURI ∈ inFlight then (false, inFlight)
  else (true, insert (serverKeyString entityID baseURI) inFlight)

/-- `Scheduler.clearInFlight`: removes a server's key from the in-flight
set, done in the source under `inFlightLock`. -/
def clearInFlight (entityID baseURI : String) (inFlight : Finset String) :
    Finset String :=
  inFlight.erase (serverKeyString entityID baseURI)

/-- The scheduler state that the in-flight discipline concerns: the
in-flight set and the multiset of keys of probes currently running
(goroutines between a successful `markInFlight` plus semaphore acquire and
the deferred `clearInFlight`). -/
structure SchedState where
  inFlight : Finset String
  active : Multiset String

/-- `NewScheduler`: empty in-flight set, no running probe. -/
def initState : SchedState :=
  ⟨∅, 0⟩

/-- One atomic transition of the `run` loop (both the priority and the
ordinary candidates flow through the same tick path, so a single dispatch
step covers both):

* `dispatch`: a tick whose chosen candidate passed `markInFlight` and
  acquired a semaphore slot, launching a probe goroutine;
* `abortTick`: a tick whose candidate passed `markInFlight` but was then
  dropped (server gone from metadata, or no free semaphore slot) — the
  key is cleared again and no probe starts;
* `tickNoop`: a tick that dispatched nothing (no eligible candidate, or
  every candidate already in flight);
* `complete`: a probe goroutine finishes and its deferred `clearInFlight`
  runs. -/
inductive Step : SchedState → SchedState → Prop where
  | dispatch (e b : String) (s : SchedState)
      (hmark : (markInFlight e b s.inFlight).1 = true) :
      Step s ⟨(markInFlight e b s.inFlight).2, serverKeyString e b ::ₘ s.active⟩
  | abortTick (e b : String) (s : SchedState)
      (hmark : (markInFlight e b s.inFlight).1 = true) :
      Step s ⟨clearInFlight e b (markInFlight e b s.inFlight).2, s.active⟩
  | tickNoop (s : SchedState) :
      Step s s
  | complete (e b : String) (s : SchedState)
      (hact : serverKeyString e b ∈ s.active) :
      Step s ⟨clearInFlight e b s.inFlight, s.active.erase (serverKeyString e b)⟩

/-- States reachable from the freshly constructed scheduler. -/
def Reachable (s : SchedState) : Prop :=
  Relation.ReflTransGen Step initState s

/-- The scheduler invariant: running probes have pairwise distinct keys,
and every running probe's key is in the in-flight set. -/
def Inv (s : SchedState) : Prop :=
  s.active.Nodup ∧ ∀ k ∈ s.active, k ∈ s.inFlight

/-- The priority bookkeeping state: the buffered `priorityChan` (created
with capacity `maxPriorityServers`) and the `priorityServers` list. -/
structure PriorityState where
  chan : List ServerKey
  priorityServers : List ServerKey
deriving DecidableEq, Repr

/-- `Scheduler.RequestPriorityCheck`: non-blocking send on the buffered
channel — `true` if the buffer has room, `false` (select `default`)
otherwise. -/
def RequestPriorityCheck (maxPriorityServers : Nat) (s : PriorityState)
    (server : ServerKey) : Bool × PriorityState :=
  if s.chan.length < maxPriorityServers then
    (true, { s with chan := s.chan ++ [server] })
  else (false, s)

/-- `Scheduler.addPriorityServer`: run-loop handler for a drained channel
entry — a duplicate key or a full list leaves the list unchanged. -/
def addPriorityServer (maxPriorityServers : Nat) (l : List ServerKey)
    (server : ServerKey) : List ServerKey :=
  if server ∈ l then l
  else if maxPriorityServers ≤ l.length then l
  else l ++ [server]

/-- `Scheduler.removePriorityServer`: removes the first occurrence of the
key from the priority list. -/
def removePriorityServer (l : List ServerKey) (server : ServerKey) :
    List ServerKey :=
  match l with
  | [] => []
  | p :: rest =>
    if p = server then rest else p :: removePriorityServer rest server

/-- `store.ServerStatus`: one persisted row per ServerKey (`server_status`
table). -/
structure ServerStatus where
  entityID : String
  baseURI : String
  lastChecked : Option Int
  isHealthy : Option Bool
  errorMessage : String
  certExpires : Option Int
  certCN : String
  certFingerprint : String
deriving DecidableEq, Repr

/-- `store.ServerToCheck`: a selection-query result row. -/
structure ServerToCheck where
  entityID : String
  baseURI : String
  lastChecked : Option Int
deriving DecidableEq, Repr

/-- The columns the selection query projects out of a stored row. -/
def toServerToCheck (r : ServerStatus) : ServerToCheck :=
  ⟨r.entityID, r.baseURI, r.lastChecked⟩

/-- The key of a stored row. -/
def keyOf (r : ServerStatus) : ServerKey :=
  ⟨r.entityID, r.baseURI⟩

/-- The selection query's `WHERE last_checked IS NULL OR
last_checked < cutoff`. -/
def needsCheck (cutoff : Int) (r : ServerStatus) : Bool :=
  match r.lastChecked with
  | none => true
  | some t => decide (t < cutoff)

/-- The selection query's `ORDER BY last_checked IS NOT NULL,
last_checked ASC`: never-checked rows come first, checked rows follow in
ascending last-checked order. -/
def selBefore (a b : ServerToCheck) : Prop :=
  (match a.lastChecked, b.lastChecked with
    | none, _ => true
    | some _, none => false
    | some x, some y => decide (x ≤ y)) = true

instance : DecidableRel selBefore :=
  fun _ _ => inferInstanceAs (Decidable (_ = true))

instance : IsTotal ServerToCheck selBefore :=
  ⟨by
    intro a b
    unfold selBefore
    rcases ha : a.lastChecked with _ | x <;>
      rcases hb : b.lastChecked with _ | y <;> (simp [ha, hb]; try omega)⟩

instance : IsTrans ServerToCheck selBefore :=
  ⟨by
    intro a b c hab hbc
    unfold selBefore at *
    rcases ha : a.lastChecked with _ | x <;>
      rcases hb : b.lastChecked with _ | y <;>
      rcases hc : c.lastChecked with _ | z <;>
      (simp_all; try omega)⟩

/-- `store.GetServersNeedingCheck` (the store code embedded in README.md,
without priority overrides): the `server_status` table is modelled as a
list of rows and `time.Now()` is passed explicitly, so the SQL
`WHERE last_checked IS NULL OR last_checked < ?` (with
`cutoff = now - minInterval`), the `ORDER BY last_checked IS NOT NULL,
last_checked ASC` and the `LIMIT ?` become filter, sort and take. -/
def GetServersNeedingCheck (rows : List ServerStatus) (now minInterval : Int)
    (limit : Nat) : List ServerToCheck :=
  let cutoff := now - minInterval
  (List.insertionSort selBefore
    ((rows.filter (needsCheck cutoff)).map toServerToCheck)).take limit

/-- Modelled from the spec: the priority part of the selection query of the
four-argument `GetServersNeedingCheck` that the scheduler calls; the
store implementation with priority support is not among the source files
(only its caller and its tests are).  Spec §4.2: "currently
priority-flagged servers whose `priorityMinInterval` has elapsed since
their last check, in priority-set order, first"; a priority key with no
stored row is skipped. -/
def priorityCandidates (rows : List ServerStatus) (now : Int)
    (priority : List ServerKey) (priorityMinInterval : Int) :
    List ServerToCheck :=
  priority.filterMap (fun k =>
    match rows.find? (fun r => keyOf r == k) with
    | none => none
    | some r =>
      match r.lastChecked with
      | none => some (toServerToCheck r)
      | some t =>
        if t ≤ now - priorityMinInterval then some (toServerToCheck r)
        else none)

/-- Modelled from the spec: the four-argument `GetServersNeedingCheck`
with priority support, whose implementation is not among the source files
(only its caller and its tests are).  Spec §4.2: the due priority entries
come first in priority-set order, then "all remaining eligible servers
ordered by last-checked time ascending, with never-checked servers
sorted ahead of any checked server", and at most `limit` rows are
returned. -/
def GetServersNeedingCheckP (rows : List ServerStatus) (now minInterval : Int)
    (limit : Nat) (priority : List ServerKey) (priorityMinInterval : Int) :
    List ServerToCheck :=
  let prio := priorityCandidates rows now priority priorityMinInterval
  let ordinary := List.insertionSort selBefore
    ((rows.filter (fun r =>
        needsCheck (now - minInterval) r
          && !decide (toServerToCheck r ∈ prio))).map toServerToCheck)
  (prio ++ ordinary).take limit

/-- The `server_status` row created by `EnsureServerExists`
(`INSERT OR IGNORE` with every other column NULL). -/
def emptyStatus (entityID baseURI : String) : ServerStatus :=
  ⟨entityID, baseURI, none, none, "", none, "", ""⟩

/-- `store.EnsureServerExists`: `INSERT OR IGNORE INTO server_status
(entity_id, base_uri)`. -/
def EnsureServerExists (entityID baseURI : String)
    (rows : List ServerStatus) : List ServerStatus :=
  if rows.any (fun r => r.entityID == entityID && r.baseURI == baseURI) then
    rows
  else rows ++ [emptyStatus entityID baseURI]

/-- `store.RemoveServersNotIn`: deletes every row whose key is not in the
given list, except that an empty list deletes nothing (the source returns
early "Don't delete everything if list is empty"). -/
def RemoveServersNotIn (servers : List ServerKey)
    (rows : List ServerStatus) : List ServerStatus :=
  if servers = [] then rows
  else rows.filter (fun r => decide (keyOf r ∈ servers))

/-- `fedtls.Entity`: a metadata entity and its servers. -/
structure Entity where
  entityID : String
  servers : List Server
deriving Repr

/-- The (entityID, baseURI) pairs of a metadata snapshot, in the
iteration order of `syncServersFromMetadata`. -/
def serversOf (entities : List Entity) : List ServerKey :=
  entities.flatMap (fun e =>
    e.servers.map (fun srv => ⟨e.entityID, srv.baseURI⟩))

/-- `Scheduler.syncServersFromMetadata`: with no metadata, do nothing;
otherwise ensure a row per current server, then remove rows not in the
snapshot — skipping the removal when the snapshot's server list is empty
(`if len(currentServers) > 0`). -/
def syncServersFromMetadata (metadata : Option (List Entity))
    (rows : List ServerStatus) : List ServerStatus :=
  match metadata with
  | none => rows
  | some entities =>
    let currentServers := serversOf entities
    let rows1 := currentServers.foldl
      (fun acc k => EnsureServerExists k.entityID k.baseURI acc) rows
    if currentServers = [] then rows1
    else RemoveServersNotIn currentServers rows1

end Matfmonitor

namespace Matfmonitor

/-- C2: if a certificate is captured and the current time is after its
`notAfter`, the result is unhealthy with the expiry reason, for every
hostname, pin set and IP oracle — expiry short-circuits all later checks. -/
theorem check_expired_short_circuits
    (entityID : String) (server : Server) (checkedAt : Int)
    (host port : String) (cert : Cert) (now : Int)
    (parseIP : String → Option (List Nat))
    (h : cert.notAfter < now) :
    (Check entityID server checkedAt (some (host, port)) (some cert) now
      parseIP).isHealthy = false ∧
    (Check entityID server checkedAt (some (host, port)) (some cert) now
      parseIP).errorMessage = ErrMsg.expired cert.notAfter := by
  simp [Check, h]

/-- Witness for `check_expired_short_circuits` at a concrete input where
hostname and pin would both have matched. -/
theorem check_expired_short_circuits_witness :
    ((0 : Int) < 1) ∧
    ((Check "e" ⟨"https://x", [⟨"sha256", "fp"⟩]⟩ 5 (some ("x", "443"))
        (some ⟨"x", 0, [], [], "fp"⟩) 1 (fun _ => none)).isHealthy = false ∧
      (Check "e" ⟨"https://x", [⟨"sha256", "fp"⟩]⟩ 5 (some ("x", "443"))
        (some ⟨"x", 0, [], [], "fp"⟩) 1 (fun _ => none)).errorMessage
        = ErrMsg.expired 0) :=
  ⟨by decide,
    check_expired_short_circuits "e" ⟨"https://x", [⟨"sha256", "fp"⟩]⟩ 5
      "x" "443" ⟨"x", 0, [], [], "fp"⟩ 1 (fun _ => none) (by decide)⟩

/-- C4: `matchesPin` is true exactly when some pin has algorithm label
`"sha256"` and digest equal to the fingerprint; a pin with the right digest
but another algorithm label never produces a match. -/
theorem matchesPin_sha256_only (fingerprint : String) (pins : List Pin) :
    (matchesPin fingerprint pins = true ↔
      ∃ pin ∈ pins, pin.alg = "sha256" ∧ pin.digest = fingerprint) ∧
    ((∀ pin ∈ pins, pin.digest = fingerprint → pin.alg ≠ "sha256") →
      matchesPin fingerprint pins = false) := by
  constructor
  · simp [matchesPin, List.any_eq_true]
  · intro hno
    rw [Bool.eq_false_iff]
    intro htrue
    simp only [matchesPin, List.any_eq_true, Bool.and_eq_true, beq_iff_eq] at htrue
    obtain ⟨pin, hmem, halg, hdig⟩ := htrue
    exact hno pin hmem hdig halg

/-- Witness for `matchesPin_sha256_only`: a pin with the right digest but
algorithm `"sha1"` does not match. -/
theorem matchesPin_sha256_only_witness :
    matchesPin "f" [⟨"sha1", "f"⟩] = false :=
  (matchesPin_sha256_only "f" [⟨"sha1", "f"⟩]).2 (by decide)

/-- C9: whenever a certificate is captured, the result carries the observed
certificate fields (CN, expiry, fingerprint) and the check timestamp,
whatever the verdict; when no certificate is captured (connection failure
or invalid address) those fields are empty while `checkedAt` is still set. -/
theorem check_reports_cert_fields
    (entityID : String) (server : Server) (checkedAt : Int)
    (parsed : Option (String × String)) (host port : String) (cert : Cert)
    (conn : Option Cert) (now : Int)
    (parseIP : String → Option (List Nat)) :
    ((Check entityID server checkedAt (some (host, port)) (some cert) now
        parseIP).certCN = cert.commonName ∧
      (Check entityID server checkedAt (some (host, port)) (some cert) now
        parseIP).certExpires = some cert.notAfter ∧
      (Check entityID server checkedAt (some (host, port)) (some cert) now
        parseIP).certFingerprint = cert.fingerprint ∧
      (Check entityID server checkedAt (some (host, port)) (some cert) now
        parseIP).checkedAt = checkedAt) ∧
    ((Check entityID server checkedAt parsed none now parseIP).certCN = "" ∧
      (Check entityID server checkedAt parsed none now parseIP).certExpires
        = none ∧
      (Check entityID server checkedAt parsed none now
        parseIP).certFingerprint = "" ∧
      (Check entityID server checkedAt parsed none now parseIP).checkedAt
        = checkedAt) ∧
    ((Check entityID server checkedAt none conn now parseIP).certCN = "" ∧
      (Check entityID server checkedAt none conn now parseIP).certExpires
        = none ∧
      (Check entityID server checkedAt none conn now
        parseIP).certFingerprint = "" ∧
      (Check entityID server checkedAt none conn now parseIP).checkedAt
        = checkedAt) := by
  refine ⟨?_, ?_, ?_⟩
  · simp only [Check]
    split_ifs <;> simp_all
  · cases parsed <;> simp [Check]
  · cases conn <;> simp [Check]

theorem inv_initState : Inv initState :=
  ⟨Multiset.nodup_zero, fun k hk => absurd hk (Multiset.not_mem_zero k)⟩

theorem markInFlight_true {e b : String} {inFlight : Finset String}
    (h : (markInFlight e b inFlight).1 = true) :
    serverKeyString e b ∉ inFlight ∧
      (markInFlight e b inFlight).2 = insert (serverKeyString e b) inFlight := by
  by_cases hmem : serverKeyString e b ∈ inFlight
  · simp [markInFlight, hmem] at h
  · exact ⟨hmem, by simp [markInFlight, hmem]⟩

theorem inv_step {s t : SchedState} (hst : Step s t) (hs : Inv s) : Inv t := by
  obtain ⟨hnd, hsub⟩ := hs
  cases hst with
  | dispatch e b s hmark =>
    obtain ⟨hkey, h2⟩ := markInFlight_true hmark
    constructor
    · exact Multiset.nodup_cons.mpr ⟨fun hmem => hkey (hsub _ hmem), hnd⟩
    · intro k hk
      show k ∈ (markInFlight e b s.inFlight).2
      rw [h2]
      rcases Multiset.mem_cons.mp hk with h | h
      · subst h; exact Finset.mem_insert_self _ _
      · exact Finset.mem_insert_of_mem (hsub _ h)
  | abortTick e b s hmark =>
    obtain ⟨hkey, h2⟩ := markInFlight_true hmark
    have h3 : clearInFlight e b (markInFlight e b s.inFlight).2 = s.inFlight := by
      rw [h2, clearInFlight, Finset.erase_insert hkey]
    refine ⟨hnd, fun k hk => ?_⟩
    show k ∈ clearInFlight e b (markInFlight e b s.inFlight).2
    rw [h3]
    exact hsub k hk
  | tickNoop s =>
    exact ⟨hnd, hsub⟩
  | complete e b s hact =>
    constructor
    · exact Multiset.Nodup.erase _ hnd
    · intro k hk
      have hne : k ≠ serverKeyString e b :=
        ((Multiset.Nodup.mem_erase_iff hnd).mp hk).1
      have hk' : k ∈ s.active := Multiset.mem_of_mem_erase hk
      exact Finset.mem_erase.mpr ⟨hne, hsub _ hk'⟩

theorem inv_reachable {s : SchedState} (hs : Reachable s) : Inv s := by
  induction hs with
  | refl => exact inv_initState
  | tail _ hstep ih => exact inv_step hstep ih

/-- C1: in every state the scheduler can reach, a given ServerKey is being
probed by at most one check at a time — every dispatch (priority or
ordinary, both flowing through the same tick path) first passes the
atomic check-and-set `markInFlight` on the shared in-flight set. -/
theorem no_overlapping_checks (s : SchedState) (hs : Reachable s)
    (entityID baseURI : String) :
    Multiset.count (serverKeyString entityID baseURI) s.active ≤ 1 :=
  Multiset.nodup_iff_count_le_one.mp (inv_reachable hs).1 _

/-- Witness for `no_overlapping_checks`: the state reached by one
successful dispatch from the initial state. -/
theorem no_overlapping_checks_witness :
    Multiset.count (serverKeyString "e" "b")
      (serverKeyString "e" "b" ::ₘ (0 : Multiset String)) ≤ 1 :=
  no_overlapping_checks
    ⟨(markInFlight "e" "b" initState.inFlight).2,
      serverKeyString "e" "b" ::ₘ initState.active⟩
    (Relation.ReflTransGen.single
      (Step.dispatch "e" "b" initState (by decide)))
    "e" "b"

/-- C5 counterexample: with `maxPriorityServers = 1` and the priority set
already holding its one key, a request for a fresh key is still accepted
by `RequestPriorityCheck` (the channel has room, so it returns `true`,
not `false` as claimed) and the key is then silently dropped by
`addPriorityServer`. -/
theorem requestPriorityCheck_full_set_still_accepts :
    (RequestPriorityCheck 1 ⟨[], [⟨"e1", "b1"⟩]⟩ ⟨"e2", "b2"⟩).1 = true ∧
    addPriorityServer 1 [⟨"e1", "b1"⟩] ⟨"e2", "b2"⟩ = [⟨"e1", "b1"⟩] := by
  decide

/-- C5 (amended): `RequestPriorityCheck` returns `false` (without ever
blocking) exactly when the buffered channel of capacity
`maxPriorityServers` is full; a duplicate key, or any key arriving while
the priority set is full, leaves the set unchanged; a fresh key is
appended as soon as the set has room; and removing a queued key frees
exactly one slot. -/
theorem priority_set_bounded (maxP : Nat) (s : PriorityState)
    (k : ServerKey) (l : List ServerKey) :
    ((RequestPriorityCheck maxP s k).1 = false ↔ maxP ≤ s.chan.length) ∧
    (k ∈ l → addPriorityServer maxP l k = l) ∧
    (maxP ≤ l.length → addPriorityServer maxP l k = l) ∧
    (k ∉ l → l.length < maxP → addPriorityServer maxP l k = l ++ [k]) ∧
    (k ∈ l → (removePriorityServer l k).length + 1 = l.length) := by
  refine ⟨?_, ?_, ?_, ?_, ?_⟩
  · unfold RequestPriorityCheck
    split <;> rename_i h <;> simp <;> omega
  · intro hk; simp [addPriorityServer, hk]
  · intro hlen
    simp [addPriorityServer, hlen]
  · intro hk hlen
    simp [addPriorityServer, hk, Nat.not_le.mpr hlen]
  · intro hk
    induction l with
    | nil => cases hk
    | cons p rest ih =>
      unfold removePriorityServer
      by_cases hp : p = k
      · simp [hp]
      · rw [if_neg hp]
        have hrest : k ∈ rest := by
          rcases List.mem_cons.mp hk with h | h
          · exact absurd h.symm hp
          · exact h
        simp only [List.length_cons]
        rw [← ih hrest]

/-- Witness for `priority_set_bounded`: a duplicate key is a no-op on the
priority set. -/
theorem priority_set_bounded_witness :
    addPriorityServer 1 [⟨"e1", "b1"⟩] ⟨"e1", "b1"⟩ = [⟨"e1", "b1"⟩] :=
  (priority_set_bounded 1 ⟨[], []⟩ ⟨"e1", "b1"⟩ [⟨"e1", "b1"⟩]).2.1 (by decide)

/-- C10: the in-flight set identifies a server solely by the string
`entityID ++ "|" ++ baseURI`: whenever two (entityID, baseURI) pairs have
the same encoding, marking the second while the first is in flight fails,
and clearing either pair clears both. -/
theorem serverKeyString_collision
    (e1 b1 e2 b2 : String) (inFlight : Finset String)
    (hcol : serverKeyString e1 b1 = serverKeyString e2 b2)
    (h1 : (markInFlight e1 b1 inFlight).1 = true) :
    (markInFlight e2 b2 (markInFlight e1 b1 inFlight).2).1 = false ∧
    clearInFlight e1 b1 (markInFlight e1 b1 inFlight).2
      = clearInFlight e2 b2 (markInFlight e1 b1 inFlight).2 ∧
    serverKeyString e1 b1 ∉
      clearInFlight e2 b2 (markInFlight e1 b1 inFlight).2 ∧
    serverKeyString e2 b2 ∉
      clearInFlight e1 b1 (markInFlight e1 b1 inFlight).2 := by
  obtain ⟨hkey, h2⟩ := markInFlight_true h1
  refine ⟨?_, ?_, ?_, ?_⟩
  · rw [h2]
    simp [markInFlight, ← hcol]
  · simp [clearInFlight, hcol]
  · rw [clearInFlight, hcol]
    exact Finset.not_mem_erase _ _
  · rw [clearInFlight, ← hcol]
    exact Finset.not_mem_erase _ _

/-- Witness for `serverKeyString_collision`: the distinct pairs
("a|b", "c") and ("a", "b|c") both encode to "a|b|c". -/
theorem serverKeyString_collision_witness :
    (serverKeyString "a|b" "c" = serverKeyString "a" "b|c") ∧
    (("a|b", "c") ≠ (("a", "b|c") : String × String)) ∧
    (markInFlight "a" "b|c" (markInFlight "a|b" "c" ∅).2).1 = false ∧
    serverKeyString "a" "b|c" ∉
      clearInFlight "a|b" "c" (markInFlight "a|b" "c" ∅).2 := by
  have h := serverKeyString_collision "a|b" "c" "a" "b|c" ∅ (by decide) (by decide)
  exact ⟨by decide, by decide, h.1, h.2.2.2⟩

theorem cons2_isPrefixOf_elim {c1 c2 : Char} {p : List Char}
    (h : [c1, c2].isPrefixOf p = true) : ∃ rest, p = c1 :: c2 :: rest := by
  match p with
  | [] => simp [List.isPrefixOf] at h
  | [a] => simp [List.isPrefixOf] at h
  | a :: b :: rest =>
    simp only [List.isPrefixOf, Bool.and_eq_true, beq_iff_eq] at h
    exact ⟨rest, by simp [h.1, h.2]⟩

theorem take_sub_length_append (t s : List Char) :
    (t ++ s).take ((t ++ s).length - s.length) = t := by
  rw [List.length_append, Nat.add_sub_cancel]
  exact List.take_left t s

theorem matchHostnameL_wildcard (pattern hostname : List Char)
    (hw : ['*', '.'].isPrefixOf (toLowerL pattern) = true) :
    matchHostnameL pattern hostname = true ↔
      ∃ lbl : List Char, lbl ≠ [] ∧ '.' ∉ lbl ∧
        toLowerL hostname = lbl ++ (toLowerL pattern).drop 1 := by
  obtain ⟨rest, hrest⟩ := cons2_isPrefixOf_elim hw
  constructor
  · intro hm
    simp only [matchHostnameL] at hm
    by_cases heq : toLowerL pattern = toLowerL hostname
    · refine ⟨['*'], by simp, by simp, ?_⟩
      rw [← heq, hrest]
      simp
    · rw [if_neg heq, if_pos hw] at hm
      by_cases hsuf :
          ((toLowerL pattern).drop 1).isSuffixOf (toLowerL hostname) = true
      · rw [if_pos hsuf] at hm
        obtain ⟨lbl, hlbl⟩ := List.isSuffixOf_iff_suffix.mp hsuf
        rw [← hlbl, take_sub_length_append] at hm
        simp only [Bool.and_eq_true, Bool.not_eq_true'] at hm
        refine ⟨lbl, ?_, ?_, hlbl.symm⟩
        · intro hnil
          rw [hnil] at hm
          simp at hm
        · intro hdot
          have helem : lbl.contains '.' = true := List.elem_iff.mpr hdot
          rw [hm.1] at helem
          cases helem
      · rw [if_neg hsuf] at hm
        cases hm
  · rintro ⟨lbl, hne, hdot, hH⟩
    simp only [matchHostnameL]
    by_cases heq : toLowerL pattern = toLowerL hostname
    · rw [if_pos heq]
    · rw [if_neg heq, if_pos hw]
      have hsuf :
          ((toLowerL pattern).drop 1).isSuffixOf (toLowerL hostname) = true :=
        List.isSuffixOf_iff_suffix.mpr ⟨lbl, hH.symm⟩
      rw [if_pos hsuf, hH, take_sub_length_append]
      have hc : lbl.contains '.' = false := by
        rw [Bool.eq_false_iff]
        intro hcon
        exact hdot (List.elem_iff.mp hcon)
      have hie : lbl.isEmpty = false := by
        cases lbl with
        | nil => exact absurd rfl hne
        | cons c cs => rfl
      rw [hc, hie]
      rfl

/-- C3: a wildcard pattern `*.x` matches exactly the hostnames that are the
pattern's suffix `.x` preceded by one non-empty dot-free label, with the
comparison case-insensitive; in particular `*.example.com` matches
`api.example.com` but neither `example.com` nor `a.b.example.com`. -/
theorem matchHostname_wildcard (pattern hostname : String)
    (hw : ['*', '.'].isPrefixOf (toLowerL pattern.data) = true) :
    (matchHostname "*.example.com" "api.example.com" = true) ∧
    (matchHostname "*.example.com" "example.com" = false) ∧
    (matchHostname "*.example.com" "a.b.example.com" = false) ∧
    (matchHostname pattern hostname = true ↔
      ∃ lbl : List Char, lbl ≠ [] ∧ '.' ∉ lbl ∧
        toLowerL hostname.data = lbl ++ (toLowerL pattern.data).drop 1) :=
  ⟨by decide, by decide, by decide,
    matchHostnameL_wildcard pattern.data hostname.data hw⟩

/-- Witness for `matchHostname_wildcard` at the pattern `*.Example.COM`
and hostname `api.example.com` (the comparison is case-insensitive). -/
theorem matchHostname_wildcard_witness :
    matchHostname "*.Example.COM" "api.example.com" = true :=
  ((matchHostname_wildcard "*.Example.COM" "api.example.com"
      (by decide)).2.2.2).mpr
    ⟨['a', 'p', 'i'], by decide, by decide, by decide⟩

theorem selBefore_elim {a b : ServerToCheck} (h : selBefore a b) :
    (b.lastChecked = none → a.lastChecked = none) ∧
    ∀ x y, a.lastChecked = some x → b.lastChecked = some y → x ≤ y := by
  unfold selBefore at h
  rcases ha : a.lastChecked with _ | x <;>
    rcases hb : b.lastChecked with _ | y <;> simp_all

/-- C6: without priority overrides, the selection query returns only rows
whose last-checked time is NULL or strictly older than `now - minInterval`,
orders never-checked rows ahead of every checked row and checked rows by
last-checked ascending, and never returns more than `limit` rows. -/
theorem getServersNeedingCheck_spec (rows : List ServerStatus)
    (now minInterval : Int) (limit : Nat) :
    (∀ s ∈ GetServersNeedingCheck rows now minInterval limit,
      s.lastChecked = none ∨
        ∃ t, s.lastChecked = some t ∧ t < now - minInterval) ∧
    (GetServersNeedingCheck rows now minInterval limit).Pairwise
      (fun a b => (b.lastChecked = none → a.lastChecked = none) ∧
        ∀ x y, a.lastChecked = some x → b.lastChecked = some y → x ≤ y) ∧
    (GetServersNeedingCheck rows now minInterval limit).length ≤ limit := by
  refine ⟨?_, ?_, ?_⟩
  · intro s hs
    have h1 : s ∈ List.insertionSort selBefore
        ((rows.filter (needsCheck (now - minInterval))).map toServerToCheck) :=
      List.mem_of_mem_take hs
    have h2 : s ∈ (rows.filter (needsCheck (now - minInterval))).map
        toServerToCheck :=
      (List.perm_insertionSort selBefore _).subset h1
    obtain ⟨r, hr, hrs⟩ := List.mem_map.mp h2
    have hneed : needsCheck (now - minInterval) r = true :=
      (List.mem_filter.mp hr).2
    subst hrs
    unfold needsCheck at hneed
    rcases hlc : r.lastChecked with _ | t
    · left; simp [toServerToCheck, hlc]
    · right
      refine ⟨t, by simp [toServerToCheck, hlc], ?_⟩
      rw [hlc] at hneed
      simpa using hneed
  · have hsorted : List.Sorted selBefore (List.insertionSort selBefore
        ((rows.filter (needsCheck (now - minInterval))).map toServerToCheck)) :=
      List.sorted_insertionSort selBefore _
    have htake : List.Pairwise selBefore
        (GetServersNeedingCheck rows now minInterval limit) :=
      List.Pairwise.sublist (List.take_sublist limit _) hsorted
    exact htake.imp (fun h => selBefore_elim h)
  · exact List.length_take_le _ _

/-- Witness for `getServersNeedingCheck_spec` at a one-row table. -/
theorem getServersNeedingCheck_spec_witness :
    (GetServersNeedingCheck [emptyStatus "e" "b"] 10 5 3).length ≤ 3 :=
  (getServersNeedingCheck_spec [emptyStatus "e" "b"] 10 5 3).2.2

theorem find?_keyOf_eq_some (rows : List ServerStatus) (k : ServerKey)
    (r : ServerStatus) (hnodup : (rows.map keyOf).Nodup) (hr : r ∈ rows)
    (hkey : keyOf r = k) :
    rows.find? (fun r2 => keyOf r2 == k) = some r := by
  induction rows with
  | nil => cases hr
  | cons h0 rest ih =>
    simp only [List.map_cons, List.nodup_cons] at hnodup
    by_cases hh : keyOf h0 = k
    · rw [List.find?_cons_of_pos _ (by simpa using hh)]
      rcases List.mem_cons.mp hr with h | h
      · rw [h]
      · exact absurd (hh ▸ hkey ▸ List.mem_map_of_mem keyOf h)
          hnodup.1
    · rw [List.find?_cons_of_neg _ (by simpa using hh)]
      rcases List.mem_cons.mp hr with h | h
      · exact absurd (h ▸ hkey) hh
      · exact ih hnodup.2 h

theorem mem_take_append_left {α : Type} (a : α) (l1 l2 : List α) (n : Nat)
    (ha : a ∈ l1) (hn : l1.length ≤ n) : a ∈ (l1 ++ l2).take n := by
  rw [List.take_append_eq_append_take, List.take_of_length_le hn]
  exact List.mem_append_left _ ha

/-- C7: a priority-flagged server with a stored row is returned by the
selection query whenever `priorityMinInterval` has elapsed since its last
check (in particular even when that check is more recent than
`minCheckInterval`), while a priority-flagged server checked within
`priorityMinInterval` is not returned via the priority path. -/
theorem priority_selection (rows : List ServerStatus)
    (now minInterval priorityMinInterval : Int) (limit : Nat)
    (priority : List ServerKey) (k : ServerKey) (r : ServerStatus)
    (hnodup : (rows.map keyOf).Nodup) (hk : k ∈ priority) (hr : r ∈ rows)
    (hkey : keyOf r = k) (hlim : priority.length ≤ limit) :
    (∀ t, r.lastChecked = some t → t ≤ now - priorityMinInterval →
      toServerToCheck r ∈
        GetServersNeedingCheckP rows now minInterval limit priority
          priorityMinInterval) ∧
    (∀ t, r.lastChecked = some t → now - priorityMinInterval < t →
      toServerToCheck r ∉
        priorityCandidates rows now priority priorityMinInterval) := by
  have hfind : rows.find? (fun r2 => keyOf r2 == k) = some r :=
    find?_keyOf_eq_some rows k r hnodup hr hkey
  constructor
  · intro t ht helapsed
    have hmem : toServerToCheck r ∈
        priorityCandidates rows now priority priorityMinInterval := by
      apply List.mem_filterMap.mpr
      refine ⟨k, hk, ?_⟩
      simp only [hfind, ht, if_pos helapsed]
    have hlen : (priorityCandidates rows now priority
        priorityMinInterval).length ≤ limit :=
      le_trans (List.length_filterMap_le _ _) hlim
    exact mem_take_append_left _ _ _ _ hmem hlen
  · intro t ht hrecent hmem
    obtain ⟨k2, hk2, hfk2⟩ := List.mem_filterMap.mp hmem
    rcases hfind2 : rows.find? (fun r2 => keyOf r2 == k2) with _ | r2
    · rw [hfind2] at hfk2
      cases hfk2
    · rw [hfind2] at hfk2
      dsimp only at hfk2
      have hk2eq : keyOf r2 = k2 := by
        simpa using List.find?_some hfind2
      rcases hlc2 : r2.lastChecked with _ | t2
      · rw [hlc2] at hfk2
        dsimp only at hfk2
        simp only [Option.some.injEq] at hfk2
        have hsame : r2.lastChecked = r.lastChecked :=
          congrArg ServerToCheck.lastChecked hfk2
        rw [hlc2, ht] at hsame
        cases hsame
      · rw [hlc2] at hfk2
        dsimp only at hfk2
        by_cases hgate : t2 ≤ now - priorityMinInterval
        · rw [if_pos hgate] at hfk2
          simp only [Option.some.injEq] at hfk2
          simp only [toServerToCheck, ServerToCheck.mk.injEq] at hfk2
          have hkeq : keyOf r2 = keyOf r := by
            unfold keyOf
            rw [hfk2.1, hfk2.2.1]
          have hk2k : k2 = k := by rw [← hk2eq, hkeq, hkey]
          rw [hk2k, hfind] at hfind2
          injection hfind2 with hval
          rw [← hval, ht] at hlc2
          injection hlc2 with hteq
          omega
        · rw [if_neg hgate] at hfk2
          cases hfk2

/-- Witness for `priority_selection`: a row checked at time 9 (inside
`minCheckInterval = 100` of `now = 10`) whose `priorityMinInterval` of 1
has elapsed is selected. -/
theorem priority_selection_witness :
    (⟨"e", "b", some 9⟩ : ServerToCheck) ∈
      GetServersNeedingCheckP
        [⟨"e", "b", some 9, none, "", none, "", ""⟩] 10 100 4
        [⟨"e", "b"⟩] 1 :=
  (priority_selection [⟨"e", "b", some 9, none, "", none, "", ""⟩]
    10 100 1 4 [⟨"e", "b"⟩] ⟨"e", "b"⟩
    ⟨"e", "b", some 9, none, "", none, "", ""⟩
    (by decide) (by decide) (by decide) (by decide) (by decide)).1 9
    (by decide) (by decide)

/-- C8: `RemoveServersNotIn` with an empty list is a no-op, and a metadata
resync whose snapshot has no servers leaves every stored row unchanged
(the scheduler skips the deletion entirely). -/
theorem empty_sync_preserves_rows (entities : List Entity)
    (rows : List ServerStatus) (hempty : serversOf entities = []) :
    RemoveServersNotIn [] rows = rows ∧
    syncServersFromMetadata (some entities) rows = rows := by
  constructor
  · simp [RemoveServersNotIn]
  · simp [syncServersFromMetadata, hempty]

/-- Witness for `empty_sync_preserves_rows`: a snapshot with one entity
and no servers preserves a one-row table. -/
theorem empty_sync_preserves_rows_witness :
    RemoveServersNotIn [] [emptyStatus "e" "b"] = [emptyStatus "e" "b"] ∧
    syncServersFromMetadata (some [⟨"ent", []⟩]) [emptyStatus "e" "b"]
      = [emptyStatus "e" "b"] :=
  empty_sync_preserves_rows [⟨"ent", []⟩] [emptyStatus "e" "b"] (by decide)

end Matfmonitor
